import Mathlib

/-!
# Verification of the online-aggregation estimators (`ola.py`)

Shallow embedding of the six OLA estimator classes from `ola.py`:
`AvgOla`, `FilterAvgOla`, `GroupByAvgOla`, `GroupBySumOla`,
`GroupByCountOla`, `FilterDistinctOla`.

Modelling conventions:
* A dataframe slice is a `List (Row K)`.  A `Row` carries the value of the
  one column the estimator groups/filters on (`key : K`) and the value of
  the numeric target column (`val : Option ℚ`, `none` modelling a missing
  value / NaN cell, which pandas `sum`/`count` skip).
* Python/numpy floats are modelled by `ℚ`; numpy float division by a zero
  count (which yields NaN together with a RuntimeWarning, not an
  exception) is modelled by `pyDiv`, returning `none` for NaN.
* Python `int / int` with a zero divisor raises `ZeroDivisionError`;
  in `GroupBySumOla.process_slice` / `GroupByCountOla.process_slice` the
  scaling-factor division `original_rows / rows_processed` is of that
  form, so those steps return `none` in place of an emission when
  `rows_processed = 0` after the length update: the call raises and never
  reaches `update_widget` (nor the accumulator loop, which in the source
  comes after the division; the slice is necessarily empty there, so the
  accumulators are unchanged either way).
* `pandas.DataFrame.groupby` iterates the groups of a slice in sorted key
  order (pandas default `sort=True`); `sliceKeys` reproduces this.
* A Python 3.7+ `dict`/`defaultdict` keeps insertion order and updates
  values in place; it is modelled as an association list with `bump`
  (`d[k] += v`) and `lookupD` (read with default `0`).
* `update_widget(groups, values)` is modelled by returning the pair of
  lists that the widget receives.
-/

namespace Ola

/-- One dataframe row, restricted to the two columns an estimator reads:
the grouping/filter column (`key`) and the numeric target column (`val`,
`none` = missing value / NaN, skipped by pandas `sum` and `count`). -/
structure Row (K : Type) where
  key : K
  val : Option ℚ
deriving DecidableEq, Repr

/-- pandas column sum over a slice: missing values contribute nothing. -/
def colSum {K : Type} (slice : List (Row K)) : ℚ :=
  (slice.map (fun r => (r.val).getD 0)).sum

/-- pandas column count over a slice: number of non-missing values. -/
def colCount {K : Type} (slice : List (Row K)) : ℕ :=
  slice.countP (fun r => (r.val).isSome)

/-- The rows of a slice belonging to group `k`. -/
def groupRows {K : Type} [DecidableEq K] (slice : List (Row K)) (k : K) :
    List (Row K) :=
  slice.filter (fun r => decide (r.key = k))

/-- `df_slice.groupby(col)[target].sum()` read at key `k`. -/
def sliceGroupSum {K : Type} [DecidableEq K] (slice : List (Row K)) (k : K) : ℚ :=
  colSum (groupRows slice k)

/-- `df_slice.groupby(col)[target].count()` read at key `k`. -/
def sliceGroupCount {K : Type} [DecidableEq K] (slice : List (Row K)) (k : K) : ℕ :=
  colCount (groupRows slice k)

/-- The distinct group keys present in a slice, in the order
`pandas.DataFrame.groupby` yields them (sorted; pandas default
`sort=True`). -/
def sliceKeys {K : Type} [LinearOrder K] (slice : List (Row K)) : List K :=
  List.insertionSort (· ≤ ·) ((slice.map Row.key).dedup)

/-- `d[k] += v` on a Python `defaultdict` with default `0`: update in
place when the key is present, append at the end otherwise. -/
def bump {K β : Type} [DecidableEq K] [Add β] :
    List (K × β) → K → β → List (K × β)
  | [], k, v => [(k, v)]
  | (k', v') :: rest, k, v =>
    if k = k' then (k', v' + v) :: rest else (k', v') :: bump rest k v

/-- Read a Python `defaultdict` with default `0`. -/
def lookupD {K β : Type} [DecidableEq K] [Zero β] :
    List (K × β) → K → β
  | [], _ => 0
  | (k', v') :: rest, k => if k = k' then v' else lookupD rest k

/-- `list(d.keys())` of a Python dict, in insertion order. -/
def keysOf {K β : Type} (m : List (K × β)) : List K := m.map Prod.fst

/-- The per-slice accumulator loop of the grouped estimators:
for each key of `ks` in order, `d[k] += f k`. -/
def bumpAll {K β : Type} [DecidableEq K] [Add β] (f : K → β)
    (m : List (K × β)) (ks : List K) : List (K × β) :=
  ks.foldl (fun m k => bump m k (f k)) m

/-- numpy float division: a float divided by a numpy zero count produces
NaN (with a RuntimeWarning), modelled by `none`. -/
def pyDiv (a : ℚ) (n : ℕ) : Option ℚ :=
  if n = 0 then none else some (a / (n : ℚ))

/-! ## `AvgOla` -/

/-- Bookkeeping state of `AvgOla`: `self.sum`, `self.count`. -/
structure AvgState where
  sum : ℚ
  count : ℕ
deriving DecidableEq, Repr

/-- `AvgOla.__init__`: both accumulators start at `0`. -/
def AvgOla.init : AvgState := ⟨0, 0⟩

/-- `AvgOla.process_slice`: add the slice's column sum and count, then
call `update_widget([""], [self.sum / self.count])`.  The division is
numpy-scalar division, so a zero count emits NaN (`none`) rather than
raising. -/
def AvgOla.process_slice {K : Type} (s : AvgState) (slice : List (Row K)) :
    AvgState × (List String × List (Option ℚ)) :=
  let sum' := s.sum + colSum slice
  let count' := s.count + colCount slice
  (⟨sum', count'⟩, ([""], [pyDiv sum' count']))

/-! ## `FilterAvgOla` -/

/-- Bookkeeping state of `FilterAvgOla`. -/
structure FilterAvgState where
  filtered_sum : ℚ
  filtered_count : ℕ
deriving DecidableEq, Repr

/-- `FilterAvgOla.__init__`. -/
def FilterAvgOla.init : FilterAvgState := ⟨0, 0⟩

/-- `FilterAvgOla.process_slice`: restrict the slice to rows whose filter
column equals `filter_value` (exact equality), then accumulate as
`AvgOla` does. -/
def FilterAvgOla.process_slice {K : Type} [DecidableEq K] (filter_value : K)
    (s : FilterAvgState) (slice : List (Row K)) :
    FilterAvgState × (List String × List (Option ℚ)) :=
  let filt_df := slice.filter (fun r => decide (r.key = filter_value))
  let sum' := s.filtered_sum + colSum filt_df
  let count' := s.filtered_count + colCount filt_df
  (⟨sum', count'⟩, ([""], [pyDiv sum' count']))

/-! ## `GroupByAvgOla` -/

/-- Bookkeeping state of `GroupByAvgOla`: `self.grouped_sum`
(`defaultdict(float)`) and `self.grouped_count` (`defaultdict(int)`). -/
structure GroupAvgState (K : Type) where
  grouped_sum : List (K × ℚ)
  grouped_count : List (K × ℕ)
deriving DecidableEq, Repr

/-- `GroupByAvgOla.__init__`: both dicts empty. -/
def GroupByAvgOla.init {K : Type} : GroupAvgState K := ⟨[], []⟩

/-- `GroupByAvgOla.process_slice`: for each group of the slice (in pandas
groupby order) add the group's target sum and count into the two dicts,
then emit all known keys with `grouped_sum[g] / grouped_count[g]`; the
division is numpy-scalar division, NaN (`none`) when the count is `0`. -/
def GroupByAvgOla.process_slice {K : Type} [LinearOrder K]
    (s : GroupAvgState K) (slice : List (Row K)) :
    GroupAvgState K × (List K × List (Option ℚ)) :=
  let ks := sliceKeys slice
  let gs := bumpAll (fun k => sliceGroupSum slice k) s.grouped_sum ks
  let gc := bumpAll (fun k => sliceGroupCount slice k) s.grouped_count ks
  let grps := keysOf gs
  (⟨gs, gc⟩, (grps, grps.map (fun g => pyDiv (lookupD gs g) (lookupD gc g))))

/-! ## `GroupBySumOla` -/

/-- Bookkeeping state of `GroupBySumOla`: `self.grouped_sums`
(`defaultdict(float)`) and `self.total_rows_processed`. -/
structure GroupSumState (K : Type) where
  grouped_sums : List (K × ℚ)
  total_rows_processed : ℕ
deriving DecidableEq, Repr

/-- `GroupBySumOla.__init__`. -/
def GroupBySumOla.init {K : Type} : GroupSumState K := ⟨[], 0⟩

/-- `GroupBySumOla.process_slice`: add `len(df_slice)` to
`total_rows_processed`; compute `scaling_factor = original_rows /
total_rows_processed` — Python `int / int`, which raises
`ZeroDivisionError` when the counter is still `0` (modelled by a `none`
emission: the call fails before the accumulator loop, which only matters
vacuously since the slice is empty there); otherwise add each slice
group's raw sum into `grouped_sums` and emit every known key with its
raw sum times the one global `scaling_factor`. -/
def GroupBySumOla.process_slice {K : Type} [LinearOrder K] (original_rows : ℕ)
    (s : GroupSumState K) (slice : List (Row K)) :
    GroupSumState K × Option (List K × List ℚ) :=
  let rows' := s.total_rows_processed + slice.length
  if rows' = 0 then (⟨s.grouped_sums, rows'⟩, none)
  else
    let scaling_factor : ℚ := (original_rows : ℚ) / (rows' : ℚ)
    let sums' := bumpAll (fun k => sliceGroupSum slice k) s.grouped_sums (sliceKeys slice)
    let est_sums := sums'.map (fun p => p.2 * scaling_factor)
    (⟨sums', rows'⟩, some (keysOf sums', est_sums))

/-! ## `GroupByCountOla` -/

/-- Bookkeeping state of `GroupByCountOla`: `self.grouped_counts`
(`defaultdict(int)`) and `self.rows_processed`. -/
structure GroupCountState (K : Type) where
  grouped_counts : List (K × ℕ)
  rows_processed : ℕ
deriving DecidableEq, Repr

/-- `GroupByCountOla.__init__`. -/
def GroupByCountOla.init {K : Type} : GroupCountState K := ⟨[], 0⟩

/-- `GroupByCountOla.process_slice`: same shape as
`GroupBySumOla.process_slice` but accumulating per-group counts of
non-missing values of the counting column; `factor = original_rows /
rows_processed` is again Python `int / int` and raises when the counter
is `0`. -/
def GroupByCountOla.process_slice {K : Type} [LinearOrder K] (original_rows : ℕ)
    (s : GroupCountState K) (slice : List (Row K)) :
    GroupCountState K × Option (List K × List ℚ) :=
  let rows' := s.rows_processed + slice.length
  if rows' = 0 then (⟨s.grouped_counts, rows'⟩, none)
  else
    let factor : ℚ := (original_rows : ℚ) / (rows' : ℚ)
    let counts' := bumpAll (fun k => sliceGroupCount slice k) s.grouped_counts (sliceKeys slice)
    let est_cts := counts'.map (fun p => (p.2 : ℚ) * factor)
    (⟨counts', rows'⟩, some (keysOf counts', est_cts))

/-! ## `FilterDistinctOla` -/

/-- Modelled from the spec: the external cardinality sketch
(`HyperLogLog` from the `HLL` library, not part of this repository) is
an opaque stateful accumulator with `add(token)` and `cardinality()`,
whose estimate is unchanged by duplicate insertions and is `0` while
nothing has been added.  It is modelled exactly (distinct-token count):
the state is the list of distinct tokens in first-insertion order. -/
structure HLLSketch where
  tokens : List String
deriving DecidableEq, Repr

/-- `hll.add(t)`: inserting a duplicate leaves the sketch unchanged. -/
def HLLSketch.add (s : HLLSketch) (t : String) : HLLSketch :=
  if t ∈ s.tokens then s else ⟨s.tokens ++ [t]⟩

/-- `hll.cardinality()` (a float in the source hence `ℚ` here); `0` for
the empty sketch. -/
def HLLSketch.cardinality (s : HLLSketch) : ℚ := (s.tokens.length : ℚ)

/-- `FilterDistinctOla.__init__`: a fresh sketch. -/
def FilterDistinctOla.init : HLLSketch := ⟨[]⟩

/-- Python `str()` of a target-column cell, as applied by
`.astype(str)` / `str(val)` in the source; a missing value renders as
`"nan"`. -/
def canon (v : Option ℚ) : String :=
  match v with
  | some q => toString q
  | none => "nan"

/-- `FilterDistinctOla.process_slice`: keep the rows whose filter column
equals `filter_value` exactly, add the string form of each survivor's
distinct-column value to the sketch, and emit
`([""], [self.hll.cardinality()])` — one unconditional emission, no
scaling, no division anywhere. -/
def FilterDistinctOla.process_slice {K : Type} [DecidableEq K]
    (filter_value : K) (s : HLLSketch) (slice : List (Row K)) :
    HLLSketch × (List String × List ℚ) :=
  let filtered_df := slice.filter (fun r => decide (r.key = filter_value))
  let hll' := filtered_df.foldl (fun h r => h.add (canon r.val)) s
  (hll', ([""], [hll'.cardinality]))

/-! ## Multi-slice runs (the driver's loop of `process_slice` calls) -/

/-- Feed a list of slices to `AvgOla`, keeping only the state. -/
def runAvg {K : Type} (s : AvgState) (slices : List (List (Row K))) : AvgState :=
  slices.foldl (fun st sl => (AvgOla.process_slice st sl).1) s

/-- Feed a list of slices to `GroupByAvgOla`, keeping only the state. -/
def runGroupAvg {K : Type} [LinearOrder K] (s : GroupAvgState K)
    (slices : List (List (Row K))) : GroupAvgState K :=
  slices.foldl (fun st sl => (GroupByAvgOla.process_slice st sl).1) s

/-- Feed a list of slices to `GroupBySumOla`, keeping only the state. -/
def runGroupSum {K : Type} [LinearOrder K] (original_rows : ℕ)
    (s : GroupSumState K) (slices : List (List (Row K))) : GroupSumState K :=
  slices.foldl (fun st sl => (GroupBySumOla.process_slice original_rows st sl).1) s

/-- Feed a list of slices to `GroupByCountOla`, keeping only the state. -/
def runGroupCount {K : Type} [LinearOrder K] (original_rows : ℕ)
    (s : GroupCountState K) (slices : List (List (Row K))) : GroupCountState K :=
  slices.foldl (fun st sl => (GroupByCountOla.process_slice original_rows st sl).1) s

/-- Feed a list of slices to `FilterDistinctOla`, keeping only the state. -/
def runFilterDistinct {K : Type} [DecidableEq K] (filter_value : K)
    (s : HLLSketch) (slices : List (List (Row K))) : HLLSketch :=
  slices.foldl (fun st sl => (FilterDistinctOla.process_slice filter_value st sl).1) s

/-! ## The concrete 6-row scenario of the spec (§8.5) -/

/-- The categorical values `x`, `y`, `z` of the scenario's grouping
column. -/
inductive GKey where
  | x
  | y
  | z
deriving DecidableEq, Repr, Fintype

/-- Numeric code of a `GKey` (their alphabetical rank, so that the
linear order below matches the order pandas sorts the categories). -/
def GKey.code : GKey → ℕ
  | .x => 0
  | .y => 1
  | .z => 2

instance : LinearOrder GKey := LinearOrder.lift' GKey.code (by decide)

/-- Slice 1 of the concrete scenario: `[(x,1),(x,2),(y,3)]`. -/
def scenarioSlice1 : List (Row GKey) :=
  [⟨.x, some 1⟩, ⟨.x, some 2⟩, ⟨.y, some 3⟩]

/-- Slice 2 of the concrete scenario: `[(y,4),(y,5),(z,6)]`. -/
def scenarioSlice2 : List (Row GKey) :=
  [⟨.y, some 4⟩, ⟨.y, some 5⟩, ⟨.z, some 6⟩]

/-! ## Helper lemmas about the dict model -/

section MapLemmas

variable {K β : Type} [DecidableEq K]

theorem lookupD_bump_self [AddMonoid β] (m : List (K × β)) (k : K) (v : β) :
    lookupD (bump m k v) k = lookupD m k + v := by
  induction m with
  | nil => simp [bump, lookupD]
  | cons p rest ih =>
    obtain ⟨k', v'⟩ := p
    by_cases h : k = k'
    · subst h; simp [bump, lookupD]
    · simp [bump, lookupD, h, ih]

theorem lookupD_bump_ne [AddMonoid β] (m : List (K × β)) {k g : K} (v : β)
    (h : g ≠ k) : lookupD (bump m k v) g = lookupD m g := by
  induction m with
  | nil => simp [bump, lookupD, h]
  | cons p rest ih =>
    obtain ⟨k', v'⟩ := p
    by_cases hk : k = k'
    · subst hk; simp [bump, lookupD, h]
    · by_cases hg : g = k'
      · subst hg; simp [bump, lookupD, hk]
      · simp [bump, lookupD, hk, hg, ih]

theorem keysOf_bump [Add β] (m : List (K × β)) (k : K) (v : β) :
    keysOf (bump m k v) =
      if k ∈ keysOf m then keysOf m else keysOf m ++ [k] := by
  induction m with
  | nil => simp [bump, keysOf]
  | cons p rest ih =>
    obtain ⟨k', v'⟩ := p
    by_cases h : k = k'
    · subst h; simp [bump, keysOf]
    · have ih' : List.map Prod.fst (bump rest k v) =
        if k ∈ List.map Prod.fst rest then List.map Prod.fst rest
        else List.map Prod.fst rest ++ [k] := ih
      simp only [bump, if_neg h, keysOf, List.map_cons, ih']
      by_cases hm : k ∈ List.map Prod.fst rest
      · rw [if_pos hm, if_pos (List.mem_cons_of_mem _ hm)]
      · rw [if_neg hm, if_neg (by simp [List.mem_cons, h, hm]), List.cons_append]

theorem keysOf_bump_nodup [Add β] (m : List (K × β)) (k : K) (v : β)
    (h : (keysOf m).Nodup) : (keysOf (bump m k v)).Nodup := by
  rw [keysOf_bump]
  split
  · exact h
  · next hk => simp [List.nodup_append, h, hk]

theorem bumpAll_cons [Add β] (f : K → β) (m : List (K × β)) (k : K) (ks : List K) :
    bumpAll f m (k :: ks) = bumpAll f (bump m k (f k)) ks := rfl

theorem lookupD_bumpAll [AddMonoid β] (f : K → β) (ks : List K)
    (m : List (K × β)) (g : K) (hnd : ks.Nodup) :
    lookupD (bumpAll f m ks) g =
      lookupD m g + (if g ∈ ks then f g else 0) := by
  revert hnd
  induction ks generalizing m with
  | nil => intro _; simp [bumpAll]
  | cons k ks ih =>
    intro hnd
    rw [List.nodup_cons] at hnd
    rw [bumpAll_cons]
    by_cases h : g = k
    · subst h
      rw [ih _ hnd.2, lookupD_bump_self]
      simp [hnd.1, add_assoc]
    · rw [ih _ hnd.2, lookupD_bump_ne _ _ h]
      simp [List.mem_cons, h]

theorem mem_keysOf_bumpAll [Add β] (f : K → β) (ks : List K)
    (m : List (K × β)) (g : K) :
    g ∈ keysOf (bumpAll f m ks) ↔ g ∈ keysOf m ∨ g ∈ ks := by
  induction ks generalizing m with
  | nil => simp [bumpAll]
  | cons k ks ih =>
    rw [bumpAll_cons, ih, keysOf_bump]
    by_cases hk : k ∈ keysOf m
    · simp only [if_pos hk, List.mem_cons]
      constructor
      · rintro (h | h)
        · exact Or.inl h
        · exact Or.inr (Or.inr h)
      · rintro (h | h | h)
        · exact Or.inl h
        · exact Or.inl (h ▸ hk)
        · exact Or.inr h
    · simp only [if_neg hk, List.mem_append, List.mem_singleton, List.mem_cons]
      tauto

theorem keysOf_bumpAll_nodup [Add β] (f : K → β) (ks : List K)
    (m : List (K × β)) (h : (keysOf m).Nodup) :
    (keysOf (bumpAll f m ks)).Nodup := by
  induction ks generalizing m with
  | nil => exact h
  | cons k ks ih => exact ih _ (keysOf_bump_nodup _ _ _ h)

theorem keysOf_bumpAll_eq_append [Add β] (f : K → β) (ks : List K)
    (m : List (K × β)) (hnd : ks.Nodup) :
    keysOf (bumpAll f m ks) =
      keysOf m ++ ks.filter (fun k => decide (k ∉ keysOf m)) := by
  revert hnd
  induction ks generalizing m with
  | nil => intro _; simp [bumpAll]
  | cons k ks ih =>
    intro hnd
    rw [List.nodup_cons] at hnd
    rw [bumpAll_cons, ih _ hnd.2, keysOf_bump]
    by_cases hk : k ∈ keysOf m
    · rw [if_pos hk, List.filter_cons_of_neg (by simpa using hk)]
    · rw [if_neg hk, List.filter_cons_of_pos (by simpa using hk)]
      rw [List.append_assoc, List.singleton_append]
      congr 1
      congr 1
      apply List.filter_congr
      intro a ha
      have hak : a ≠ k := fun h => hnd.1 (h ▸ ha)
      simp [hak]

theorem keysOf_bumpAll_prefixExt [Add β] (f : K → β) (ks : List K)
    (m : List (K × β)) :
    ∃ t, keysOf (bumpAll f m ks) = keysOf m ++ t := by
  induction ks generalizing m with
  | nil => exact ⟨[], by simp [bumpAll]⟩
  | cons k ks ih =>
    rw [bumpAll_cons]
    obtain ⟨t, ht⟩ := ih (bump m k (f k))
    rw [ht, keysOf_bump]
    by_cases hk : k ∈ keysOf m
    · exact ⟨t, by rw [if_pos hk]⟩
    · exact ⟨[k] ++ t, by rw [if_neg hk, List.append_assoc]⟩

theorem lookupD_eq_snd_of_nodup [Zero β] (m : List (K × β))
    (hnd : (keysOf m).Nodup) : ∀ p ∈ m, lookupD m p.1 = p.2 := by
  induction m with
  | nil => simp
  | cons q rest ih =>
    obtain ⟨k', v'⟩ := q
    simp only [keysOf, List.map_cons, List.nodup_cons] at hnd
    intro p hp
    rcases List.mem_cons.mp hp with h | h
    · subst h; simp [lookupD]
    · have hne : p.1 ≠ k' := by
        intro hh
        exact hnd.1 (hh ▸ List.mem_map_of_mem Prod.fst h)
      simp only [lookupD, if_neg hne]
      exact ih hnd.2 p h

end MapLemmas

/-! ## Helper lemmas about slices -/

section SliceLemmas

variable {K : Type}

theorem sliceKeys_nodup [LinearOrder K] (slice : List (Row K)) :
    (sliceKeys slice).Nodup :=
  (List.perm_insertionSort _ _).nodup_iff.mpr (List.nodup_dedup _)

theorem mem_sliceKeys [LinearOrder K] (slice : List (Row K)) (g : K) :
    g ∈ sliceKeys slice ↔ ∃ r ∈ slice, r.key = g := by
  unfold sliceKeys
  rw [(List.perm_insertionSort _ _).mem_iff, List.mem_dedup, List.mem_map]

theorem sliceKeys_nil [LinearOrder K] : sliceKeys ([] : List (Row K)) = [] := rfl

theorem length_eq_zero_of_rows_eq_zero {n : ℕ} {slice : List (Row K)}
    (h : n + slice.length = 0) : slice = [] :=
  List.length_eq_zero.mp (Nat.eq_zero_of_add_eq_zero_left h)

theorem groupRows_eq_nil [DecidableEq K] (slice : List (Row K)) (g : K)
    (h : ∀ r ∈ slice, r.key ≠ g) : groupRows slice g = [] := by
  simp only [groupRows, List.filter_eq_nil_iff]
  intro r hr
  simpa using h r hr

theorem sliceGroupSum_eq_zero [LinearOrder K] (slice : List (Row K)) (g : K)
    (h : g ∉ sliceKeys slice) : sliceGroupSum slice g = 0 := by
  rw [mem_sliceKeys] at h
  push_neg at h
  rw [sliceGroupSum, groupRows_eq_nil _ _ h]
  simp [colSum]

theorem sliceGroupCount_eq_zero [LinearOrder K] (slice : List (Row K)) (g : K)
    (h : g ∉ sliceKeys slice) : sliceGroupCount slice g = 0 := by
  rw [mem_sliceKeys] at h
  push_neg at h
  rw [sliceGroupCount, groupRows_eq_nil _ _ h]
  simp [colCount]

theorem colSum_append (a b : List (Row K)) :
    colSum (a ++ b) = colSum a + colSum b := by
  simp [colSum]

theorem colCount_append (a b : List (Row K)) :
    colCount (a ++ b) = colCount a + colCount b := by
  simp [colCount, List.countP_append]

theorem groupRows_append [DecidableEq K] (a b : List (Row K)) (g : K) :
    groupRows (a ++ b) g = groupRows a g ++ groupRows b g := by
  simp [groupRows, List.filter_append]

theorem sliceGroupSum_append [DecidableEq K] (a b : List (Row K)) (g : K) :
    sliceGroupSum (a ++ b) g = sliceGroupSum a g + sliceGroupSum b g := by
  rw [sliceGroupSum, groupRows_append, colSum_append]; rfl

theorem sliceGroupCount_append [DecidableEq K] (a b : List (Row K)) (g : K) :
    sliceGroupCount (a ++ b) g = sliceGroupCount a g + sliceGroupCount b g := by
  rw [sliceGroupCount, groupRows_append, colCount_append]; rfl

theorem colSum_perm {a b : List (Row K)} (h : a.Perm b) : colSum a = colSum b :=
  (h.map _).sum_eq

theorem colCount_perm {a b : List (Row K)} (h : a.Perm b) :
    colCount a = colCount b :=
  h.countP_eq _

theorem sliceGroupSum_perm [DecidableEq K] {a b : List (Row K)} (h : a.Perm b)
    (g : K) : sliceGroupSum a g = sliceGroupSum b g :=
  colSum_perm (h.filter _)

theorem sliceGroupCount_perm [DecidableEq K] {a b : List (Row K)} (h : a.Perm b)
    (g : K) : sliceGroupCount a g = sliceGroupCount b g :=
  colCount_perm (h.filter _)

end SliceLemmas

/-! ## Step and run lemmas for `GroupBySumOla` -/

section GroupSumLemmas

variable {K : Type} [LinearOrder K]

theorem groupSum_step_rows (R : ℕ) (s : GroupSumState K) (slice : List (Row K)) :
    ((GroupBySumOla.process_slice R s slice).1).total_rows_processed =
      s.total_rows_processed + slice.length := by
  simp only [GroupBySumOla.process_slice]
  split <;> rfl

theorem groupSum_step_lookup (R : ℕ) (s : GroupSumState K)
    (slice : List (Row K)) (g : K) :
    lookupD ((GroupBySumOla.process_slice R s slice).1).grouped_sums g =
      lookupD s.grouped_sums g + sliceGroupSum slice g := by
  simp only [GroupBySumOla.process_slice]
  split
  · next h =>
    rw [length_eq_zero_of_rows_eq_zero h]
    simp [sliceGroupSum, groupRows, colSum]
  · show lookupD (bumpAll _ _ _) g = _
    rw [lookupD_bumpAll _ _ _ _ (sliceKeys_nodup slice)]
    by_cases hg : g ∈ sliceKeys slice
    · rw [if_pos hg]
    · rw [if_neg hg, sliceGroupSum_eq_zero _ _ hg]

theorem groupSum_step_keys (R : ℕ) (s : GroupSumState K) (slice : List (Row K)) :
    keysOf ((GroupBySumOla.process_slice R s slice).1).grouped_sums =
      keysOf s.grouped_sums ++
        (sliceKeys slice).filter (fun k => decide (k ∉ keysOf s.grouped_sums)) := by
  simp only [GroupBySumOla.process_slice]
  split
  · next h =>
    rw [length_eq_zero_of_rows_eq_zero h, sliceKeys_nil]
    simp
  · exact keysOf_bumpAll_eq_append _ _ _ (sliceKeys_nodup slice)

theorem groupSum_step_keys_nodup (R : ℕ) (s : GroupSumState K)
    (slice : List (Row K)) (h : (keysOf s.grouped_sums).Nodup) :
    (keysOf ((GroupBySumOla.process_slice R s slice).1).grouped_sums).Nodup := by
  simp only [GroupBySumOla.process_slice]
  split
  · exact h
  · exact keysOf_bumpAll_nodup _ _ _ h

theorem groupSum_step_fail (R : ℕ) (s : GroupSumState K) (slice : List (Row K))
    (h : s.total_rows_processed + slice.length = 0) :
    (GroupBySumOla.process_slice R s slice).2 = none := by
  simp only [GroupBySumOla.process_slice]
  rw [if_pos h]

theorem groupSum_step_emit (R : ℕ) (s : GroupSumState K) (slice : List (Row K))
    (h : s.total_rows_processed + slice.length ≠ 0) :
    (GroupBySumOla.process_slice R s slice).2 =
      some (keysOf ((GroupBySumOla.process_slice R s slice).1).grouped_sums,
        ((GroupBySumOla.process_slice R s slice).1).grouped_sums.map
          (fun p => p.2 * ((R : ℚ) / ((s.total_rows_processed + slice.length : ℕ) : ℚ)))) := by
  simp only [GroupBySumOla.process_slice]
  rw [if_neg h]

theorem runGroupSum_cons (R : ℕ) (s : GroupSumState K) (slice : List (Row K))
    (slices : List (List (Row K))) :
    runGroupSum R s (slice :: slices) =
      runGroupSum R ((GroupBySumOla.process_slice R s slice).1) slices := rfl

theorem runGroupSum_rows (R : ℕ) (s : GroupSumState K)
    (slices : List (List (Row K))) :
    (runGroupSum R s slices).total_rows_processed =
      s.total_rows_processed + slices.flatten.length := by
  induction slices generalizing s with
  | nil => simp [runGroupSum]
  | cons slice slices ih =>
    rw [runGroupSum_cons, ih, groupSum_step_rows]
    simp [Nat.add_assoc]

theorem runGroupSum_lookup (R : ℕ) (s : GroupSumState K)
    (slices : List (List (Row K))) (g : K) :
    lookupD (runGroupSum R s slices).grouped_sums g =
      lookupD s.grouped_sums g + sliceGroupSum slices.flatten g := by
  induction slices generalizing s with
  | nil => simp [runGroupSum, sliceGroupSum, groupRows, colSum]
  | cons slice slices ih =>
    rw [runGroupSum_cons, ih, groupSum_step_lookup]
    rw [List.flatten_cons, sliceGroupSum_append, add_assoc]

theorem runGroupSum_keys_nodup (R : ℕ) (s : GroupSumState K)
    (slices : List (List (Row K))) (h : (keysOf s.grouped_sums).Nodup) :
    (keysOf (runGroupSum R s slices).grouped_sums).Nodup := by
  induction slices generalizing s with
  | nil => exact h
  | cons slice slices ih =>
    rw [runGroupSum_cons]
    exact ih _ (groupSum_step_keys_nodup _ _ _ h)

theorem runGroupSum_keys_prefixExt (R : ℕ) (s : GroupSumState K)
    (slices : List (List (Row K))) :
    ∃ t, keysOf (runGroupSum R s slices).grouped_sums =
      keysOf s.grouped_sums ++ t := by
  induction slices generalizing s with
  | nil => exact ⟨[], by simp [runGroupSum]⟩
  | cons slice slices ih =>
    rw [runGroupSum_cons]
    obtain ⟨t, ht⟩ := ih ((GroupBySumOla.process_slice R s slice).1)
    rw [ht, groupSum_step_keys, List.append_assoc]
    exact ⟨_, rfl⟩

theorem runGroupSum_mem_keys (R : ℕ) (s : GroupSumState K)
    (slices : List (List (Row K))) (g : K) :
    g ∈ keysOf (runGroupSum R s slices).grouped_sums ↔
      g ∈ keysOf s.grouped_sums ∨ ∃ r ∈ slices.flatten, r.key = g := by
  induction slices generalizing s with
  | nil => simp [runGroupSum]
  | cons slice slices ih =>
    rw [runGroupSum_cons, ih]
    simp only [GroupBySumOla.process_slice]
    split
    · next h =>
      rw [length_eq_zero_of_rows_eq_zero h]
      simp
    · show (g ∈ keysOf (bumpAll _ _ _) ∨ _) ↔ _
      rw [mem_keysOf_bumpAll, mem_sliceKeys]
      simp only [List.flatten_cons, List.mem_append]
      constructor
      · rintro ((h | h) | h)
        · exact Or.inl h
        · exact Or.inr (by obtain ⟨r, hr, hk⟩ := h; exact ⟨r, Or.inl hr, hk⟩)
        · exact Or.inr (by obtain ⟨r, hr, hk⟩ := h; exact ⟨r, Or.inr hr, hk⟩)
      · rintro (h | ⟨r, hr | hr, hk⟩)
        · exact Or.inl (Or.inl h)
        · exact Or.inl (Or.inr ⟨r, hr, hk⟩)
        · exact Or.inr ⟨r, hr, hk⟩

end GroupSumLemmas

/-! ## Step and run lemmas for `GroupByCountOla` -/

section GroupCountLemmas

variable {K : Type} [LinearOrder K]

theorem groupCount_step_rows (R : ℕ) (s : GroupCountState K)
    (slice : List (Row K)) :
    ((GroupByCountOla.process_slice R s slice).1).rows_processed =
      s.rows_processed + slice.length := by
  simp only [GroupByCountOla.process_slice]
  split <;> rfl

theorem groupCount_step_lookup (R : ℕ) (s : GroupCountState K)
    (slice : List (Row K)) (g : K) :
    lookupD ((GroupByCountOla.process_slice R s slice).1).grouped_counts g =
      lookupD s.grouped_counts g + sliceGroupCount slice g := by
  simp only [GroupByCountOla.process_slice]
  split
  · next h =>
    rw [length_eq_zero_of_rows_eq_zero h]
    simp [sliceGroupCount, groupRows, colCount]
  · show lookupD (bumpAll _ _ _) g = _
    rw [lookupD_bumpAll _ _ _ _ (sliceKeys_nodup slice)]
    by_cases hg : g ∈ sliceKeys slice
    · rw [if_pos hg]
    · rw [if_neg hg, sliceGroupCount_eq_zero _ _ hg]

theorem groupCount_step_keys (R : ℕ) (s : GroupCountState K)
    (slice : List (Row K)) :
    keysOf ((GroupByCountOla.process_slice R s slice).1).grouped_counts =
      keysOf s.grouped_counts ++
        (sliceKeys slice).filter (fun k => decide (k ∉ keysOf s.grouped_counts)) := by
  simp only [GroupByCountOla.process_slice]
  split
  · next h =>
    rw [length_eq_zero_of_rows_eq_zero h, sliceKeys_nil]
    simp
  · exact keysOf_bumpAll_eq_append _ _ _ (sliceKeys_nodup slice)

theorem groupCount_step_keys_nodup (R : ℕ) (s : GroupCountState K)
    (slice : List (Row K)) (h : (keysOf s.grouped_counts).Nodup) :
    (keysOf ((GroupByCountOla.process_slice R s slice).1).grouped_counts).Nodup := by
  simp only [GroupByCountOla.process_slice]
  split
  · exact h
  · exact keysOf_bumpAll_nodup _ _ _ h

theorem groupCount_step_fail (R : ℕ) (s : GroupCountState K)
    (slice : List (Row K)) (h : s.rows_processed + slice.length = 0) :
    (GroupByCountOla.process_slice R s slice).2 = none := by
  simp only [GroupByCountOla.process_slice]
  rw [if_pos h]

theorem groupCount_step_emit (R : ℕ) (s : GroupCountState K)
    (slice : List (Row K)) (h : s.rows_processed + slice.length ≠ 0) :
    (GroupByCountOla.process_slice R s slice).2 =
      some (keysOf ((GroupByCountOla.process_slice R s slice).1).grouped_counts,
        ((GroupByCountOla.process_slice R s slice).1).grouped_counts.map
          (fun p => (p.2 : ℚ) * ((R : ℚ) / ((s.rows_processed + slice.length : ℕ) : ℚ)))) := by
  simp only [GroupByCountOla.process_slice]
  rw [if_neg h]

theorem runGroupCount_cons (R : ℕ) (s : GroupCountState K)
    (slice : List (Row K)) (slices : List (List (Row K))) :
    runGroupCount R s (slice :: slices) =
      runGroupCount R ((GroupByCountOla.process_slice R s slice).1) slices := rfl

theorem runGroupCount_rows (R : ℕ) (s : GroupCountState K)
    (slices : List (List (Row K))) :
    (runGroupCount R s slices).rows_processed =
      s.rows_processed + slices.flatten.length := by
  induction slices generalizing s with
  | nil => simp [runGroupCount]
  | cons slice slices ih =>
    rw [runGroupCount_cons, ih, groupCount_step_rows]
    simp [Nat.add_assoc]

theorem runGroupCount_lookup (R : ℕ) (s : GroupCountState K)
    (slices : List (List (Row K))) (g : K) :
    lookupD (runGroupCount R s slices).grouped_counts g =
      lookupD s.grouped_counts g + sliceGroupCount slices.flatten g := by
  induction slices generalizing s with
  | nil => simp [runGroupCount, sliceGroupCount, groupRows, colCount]
  | cons slice slices ih =>
    rw [runGroupCount_cons, ih, groupCount_step_lookup]
    rw [List.flatten_cons, sliceGroupCount_append, add_assoc]

theorem runGroupCount_keys_nodup (R : ℕ) (s : GroupCountState K)
    (slices : List (List (Row K))) (h : (keysOf s.grouped_counts).Nodup) :
    (keysOf (runGroupCount R s slices).grouped_counts).Nodup := by
  induction slices generalizing s with
  | nil => exact h
  | cons slice slices ih =>
    rw [runGroupCount_cons]
    exact ih _ (groupCount_step_keys_nodup _ _ _ h)

theorem runGroupCount_keys_prefixExt (R : ℕ) (s : GroupCountState K)
    (slices : List (List (Row K))) :
    ∃ t, keysOf (runGroupCount R s slices).grouped_counts =
      keysOf s.grouped_counts ++ t := by
  induction slices generalizing s with
  | nil => exact ⟨[], by simp [runGroupCount]⟩
  | cons slice slices ih =>
    rw [runGroupCount_cons]
    obtain ⟨t, ht⟩ := ih ((GroupByCountOla.process_slice R s slice).1)
    rw [ht, groupCount_step_keys, List.append_assoc]
    exact ⟨_, rfl⟩

end GroupCountLemmas

/-! ## Step and run lemmas for `GroupByAvgOla` -/

section GroupAvgLemmas

variable {K : Type} [LinearOrder K]

theorem groupAvg_step_state (s : GroupAvgState K) (slice : List (Row K)) :
    (GroupByAvgOla.process_slice s slice).1 =
      ⟨bumpAll (fun k => sliceGroupSum slice k) s.grouped_sum (sliceKeys slice),
       bumpAll (fun k => sliceGroupCount slice k) s.grouped_count (sliceKeys slice)⟩ := rfl

theorem groupAvg_step_emit (s : GroupAvgState K) (slice : List (Row K)) :
    (GroupByAvgOla.process_slice s slice).2 =
      (keysOf ((GroupByAvgOla.process_slice s slice).1).grouped_sum,
       (keysOf ((GroupByAvgOla.process_slice s slice).1).grouped_sum).map
         (fun g => pyDiv
           (lookupD ((GroupByAvgOla.process_slice s slice).1).grouped_sum g)
           (lookupD ((GroupByAvgOla.process_slice s slice).1).grouped_count g))) := rfl

theorem groupAvg_step_count_lookup (s : GroupAvgState K) (slice : List (Row K))
    (g : K) :
    lookupD ((GroupByAvgOla.process_slice s slice).1).grouped_count g =
      lookupD s.grouped_count g + sliceGroupCount slice g := by
  rw [groupAvg_step_state]
  show lookupD (bumpAll _ _ _) g = _
  rw [lookupD_bumpAll _ _ _ _ (sliceKeys_nodup slice)]
  by_cases hg : g ∈ sliceKeys slice
  · rw [if_pos hg]
  · rw [if_neg hg, sliceGroupCount_eq_zero _ _ hg]

theorem groupAvg_step_sum_lookup (s : GroupAvgState K) (slice : List (Row K))
    (g : K) :
    lookupD ((GroupByAvgOla.process_slice s slice).1).grouped_sum g =
      lookupD s.grouped_sum g + sliceGroupSum slice g := by
  rw [groupAvg_step_state]
  show lookupD (bumpAll _ _ _) g = _
  rw [lookupD_bumpAll _ _ _ _ (sliceKeys_nodup slice)]
  by_cases hg : g ∈ sliceKeys slice
  · rw [if_pos hg]
  · rw [if_neg hg, sliceGroupSum_eq_zero _ _ hg]

theorem groupAvg_step_sum_keys (s : GroupAvgState K) (slice : List (Row K)) :
    keysOf ((GroupByAvgOla.process_slice s slice).1).grouped_sum =
      keysOf s.grouped_sum ++
        (sliceKeys slice).filter (fun k => decide (k ∉ keysOf s.grouped_sum)) := by
  rw [groupAvg_step_state]
  exact keysOf_bumpAll_eq_append _ _ _ (sliceKeys_nodup slice)

theorem groupAvg_step_count_keys (s : GroupAvgState K) (slice : List (Row K)) :
    keysOf ((GroupByAvgOla.process_slice s slice).1).grouped_count =
      keysOf s.grouped_count ++
        (sliceKeys slice).filter (fun k => decide (k ∉ keysOf s.grouped_count)) := by
  rw [groupAvg_step_state]
  exact keysOf_bumpAll_eq_append _ _ _ (sliceKeys_nodup slice)

theorem groupAvg_step_keys_eq (s : GroupAvgState K) (slice : List (Row K))
    (h : keysOf s.grouped_sum = keysOf s.grouped_count) :
    keysOf ((GroupByAvgOla.process_slice s slice).1).grouped_sum =
      keysOf ((GroupByAvgOla.process_slice s slice).1).grouped_count := by
  rw [groupAvg_step_sum_keys, groupAvg_step_count_keys, h]

theorem groupAvg_step_sum_keys_nodup (s : GroupAvgState K)
    (slice : List (Row K)) (h : (keysOf s.grouped_sum).Nodup) :
    (keysOf ((GroupByAvgOla.process_slice s slice).1).grouped_sum).Nodup := by
  rw [groupAvg_step_state]
  exact keysOf_bumpAll_nodup _ _ _ h

theorem runGroupAvg_cons (s : GroupAvgState K) (slice : List (Row K))
    (slices : List (List (Row K))) :
    runGroupAvg s (slice :: slices) =
      runGroupAvg ((GroupByAvgOla.process_slice s slice).1) slices := rfl

theorem runGroupAvg_sum_keys_nodup (s : GroupAvgState K)
    (slices : List (List (Row K))) (h : (keysOf s.grouped_sum).Nodup) :
    (keysOf (runGroupAvg s slices).grouped_sum).Nodup := by
  induction slices generalizing s with
  | nil => exact h
  | cons slice slices ih =>
    rw [runGroupAvg_cons]
    exact ih _ (groupAvg_step_sum_keys_nodup _ _ h)

theorem runGroupAvg_keys_eq (s : GroupAvgState K)
    (slices : List (List (Row K)))
    (h : keysOf s.grouped_sum = keysOf s.grouped_count) :
    keysOf (runGroupAvg s slices).grouped_sum =
      keysOf (runGroupAvg s slices).grouped_count := by
  induction slices generalizing s with
  | nil => exact h
  | cons slice slices ih =>
    rw [runGroupAvg_cons]
    exact ih _ (groupAvg_step_keys_eq _ _ h)

theorem runGroupAvg_sum_keys_prefixExt (s : GroupAvgState K)
    (slices : List (List (Row K))) :
    ∃ t, keysOf (runGroupAvg s slices).grouped_sum =
      keysOf s.grouped_sum ++ t := by
  induction slices generalizing s with
  | nil => exact ⟨[], by simp [runGroupAvg]⟩
  | cons slice slices ih =>
    rw [runGroupAvg_cons]
    obtain ⟨t, ht⟩ := ih ((GroupByAvgOla.process_slice s slice).1)
    rw [ht, groupAvg_step_sum_keys, List.append_assoc]
    exact ⟨_, rfl⟩

end GroupAvgLemmas

/-! ## Step and run lemmas for `AvgOla` -/

section AvgLemmas

variable {K : Type}

theorem avg_step (s : AvgState) (slice : List (Row K)) :
    AvgOla.process_slice s slice =
      (⟨s.sum + colSum slice, s.count + colCount slice⟩,
       ([""], [pyDiv (s.sum + colSum slice) (s.count + colCount slice)])) := rfl

theorem runAvg_cons (s : AvgState) (slice : List (Row K))
    (slices : List (List (Row K))) :
    runAvg s (slice :: slices) =
      runAvg ((AvgOla.process_slice s slice).1) slices := rfl

theorem runAvg_sum (s : AvgState) (slices : List (List (Row K))) :
    (runAvg s slices).sum = s.sum + colSum slices.flatten := by
  induction slices generalizing s with
  | nil => simp [runAvg, colSum]
  | cons slice slices ih =>
    rw [runAvg_cons, ih, avg_step]
    rw [List.flatten_cons, colSum_append, add_assoc]

theorem runAvg_count (s : AvgState) (slices : List (List (Row K))) :
    (runAvg s slices).count = s.count + colCount slices.flatten := by
  induction slices generalizing s with
  | nil => simp [runAvg, colCount]
  | cons slice slices ih =>
    rw [runAvg_cons, ih, avg_step]
    rw [List.flatten_cons, colCount_append, add_assoc]

end AvgLemmas

/-! ## Lemmas for the cardinality sketch and `FilterDistinctOla` -/

section DistinctLemmas

variable {K : Type} [DecidableEq K]

theorem mem_add_tokens (s : HLLSketch) (t t' : String) :
    t' ∈ (s.add t).tokens ↔ t' ∈ s.tokens ∨ t' = t := by
  unfold HLLSketch.add
  split
  · next h =>
    constructor
    · exact Or.inl
    · rintro (hm | rfl)
      · exact hm
      · exact h
  · simp

theorem add_tokens_nodup (s : HLLSketch) (t : String)
    (h : s.tokens.Nodup) : (s.add t).tokens.Nodup := by
  unfold HLLSketch.add
  split
  · exact h
  · next hm => simp [List.nodup_append, h, hm]

theorem mem_foldl_add_tokens (s : HLLSketch) (l : List String) (t : String) :
    t ∈ (l.foldl HLLSketch.add s).tokens ↔ t ∈ s.tokens ∨ t ∈ l := by
  induction l generalizing s with
  | nil => simp
  | cons a l ih =>
    rw [List.foldl_cons, ih, mem_add_tokens]
    simp only [List.mem_cons]
    tauto

theorem foldl_add_tokens_nodup (s : HLLSketch) (l : List String)
    (h : s.tokens.Nodup) : (l.foldl HLLSketch.add s).tokens.Nodup := by
  induction l generalizing s with
  | nil => exact h
  | cons a l ih => exact ih _ (add_tokens_nodup _ _ h)

theorem filterDistinct_step_state (fv : K) (s : HLLSketch)
    (slice : List (Row K)) :
    (FilterDistinctOla.process_slice fv s slice).1 =
      ((slice.filter (fun r => decide (r.key = fv))).map
        (fun r => canon r.val)).foldl HLLSketch.add s := by
  simp only [FilterDistinctOla.process_slice, List.foldl_map]

theorem filterDistinct_step_emit (fv : K) (s : HLLSketch)
    (slice : List (Row K)) :
    (FilterDistinctOla.process_slice fv s slice).2 =
      ([""], [((FilterDistinctOla.process_slice fv s slice).1).cardinality]) := rfl

theorem runFilterDistinct_cons (fv : K) (s : HLLSketch) (slice : List (Row K))
    (slices : List (List (Row K))) :
    runFilterDistinct fv s (slice :: slices) =
      runFilterDistinct fv ((FilterDistinctOla.process_slice fv s slice).1) slices := rfl

theorem runFilterDistinct_state (fv : K) (s : HLLSketch)
    (slices : List (List (Row K))) :
    runFilterDistinct fv s slices =
      ((slices.flatten.filter (fun r => decide (r.key = fv))).map
        (fun r => canon r.val)).foldl HLLSketch.add s := by
  induction slices generalizing s with
  | nil => simp [runFilterDistinct]
  | cons slice slices ih =>
    rw [runFilterDistinct_cons, ih, filterDistinct_step_state]
    rw [List.flatten_cons, List.filter_append, List.map_append, List.foldl_append]

theorem length_eq_dedup_length_of_nodup_mem {l₁ l₂ : List String}
    (h₁ : l₁.Nodup) (h₂ : l₂.Nodup) (hm : ∀ t, t ∈ l₁ ↔ t ∈ l₂) :
    l₁.length = l₂.length :=
  ((List.perm_ext_iff_of_nodup h₁ h₂).mpr hm).length_eq

end DistinctLemmas

/-! ## Assorted helper lemmas used by the claim theorems -/

section MoreHelpers

variable {K : Type} [DecidableEq K]

theorem lookupD_eq_zero_of_not_mem {β : Type} [Zero β] (m : List (K × β))
    (g : K) (h : g ∉ keysOf m) : lookupD m g = 0 := by
  induction m with
  | nil => rfl
  | cons p rest ih =>
    obtain ⟨k', v'⟩ := p
    simp only [keysOf, List.map_cons, List.mem_cons] at h
    push_neg at h
    simp only [lookupD, if_neg h.1]
    exact ih h.2

theorem map_snd_eq_map_lookupD {β γ : Type} [Zero β] (m : List (K × β))
    (f : K → β → γ) (hnd : (keysOf m).Nodup) :
    m.map (fun p => f p.1 p.2) =
      (keysOf m).map (fun g => f g (lookupD m g)) := by
  unfold keysOf
  rw [List.map_map]
  apply List.map_congr_left
  intro p hp
  simp [lookupD_eq_snd_of_nodup m hnd p hp]

theorem map_snd_cast_mul_eq (m : List (K × ℕ)) (c : ℚ)
    (hnd : (keysOf m).Nodup) :
    m.map (fun p => (p.2 : ℚ) * c) =
      (keysOf m).map (fun g => ((lookupD m g : ℕ) : ℚ) * c) :=
  map_snd_eq_map_lookupD m (fun _ v => ((v : ℕ) : ℚ) * c) hnd

theorem sliceGroupCount_pos (slice : List (Row K)) (g : K) (r : Row K)
    (hr : r ∈ slice) (hk : r.key = g) (hv : (r.val).isSome) :
    0 < sliceGroupCount slice g := by
  unfold sliceGroupCount colCount groupRows
  rw [List.countP_pos_iff]
  exact ⟨r, List.mem_filter.mpr ⟨hr, by simp [hk]⟩, by simpa using hv⟩

end MoreHelpers

/-! ## The claims -/

/-- C1, counterexample.  The claim says that while no contributing row has
been seen (`count = 0`), `process_slice` suppresses emission — skips the
`update_widget` call — for the zero-count scalar.  In the code there is no
such guard: `AvgOla.process_slice` on a first empty slice still calls
`update_widget` with the single value `0 / 0`, which numpy evaluates to
NaN (modelled `none`), i.e. an invalid number is emitted instead of the
update being skipped. -/
theorem C1_counterexample :
    (AvgOla.process_slice AvgOla.init ([] : List (Row GKey))).2 = ([""], [none])
      ∧ ((AvgOla.process_slice AvgOla.init ([] : List (Row GKey))).1).count = 0 :=
  ⟨rfl, rfl⟩

/-- C1, amended: while no contributing row has been seen, no estimator
skips the sink update and continues normally.  The mean estimators
(`AvgOla`, `FilterAvgOla`) do emit — the invalid value NaN — for the
zero-count scalar, and the scaled estimators (`GroupBySumOla`,
`GroupByCountOla`) raise `ZeroDivisionError` out of `process_slice`
(so no update reaches the sink, but because the call fails, not because
emission is gracefully suppressed). -/
theorem C1_amended {K : Type} [LinearOrder K] (R : ℕ) (fv : K)
    (sA : AvgState) (sliceA : List (Row K))
    (sF : FilterAvgState) (sliceF : List (Row K))
    (sS : GroupSumState K) (sliceS : List (Row K))
    (sC : GroupCountState K) (sliceC : List (Row K))
    (hA : sA.count + colCount sliceA = 0)
    (hF : sF.filtered_count +
      colCount (sliceF.filter (fun r => decide (r.key = fv))) = 0)
    (hS : sS.total_rows_processed + sliceS.length = 0)
    (hC : sC.rows_processed + sliceC.length = 0) :
    (AvgOla.process_slice sA sliceA).2 = ([""], [none])
    ∧ (FilterAvgOla.process_slice fv sF sliceF).2 = ([""], [none])
    ∧ (GroupBySumOla.process_slice R sS sliceS).2 = none
    ∧ (GroupByCountOla.process_slice R sC sliceC).2 = none := by
  refine ⟨?_, ?_, groupSum_step_fail _ _ _ hS, groupCount_step_fail _ _ _ hC⟩
  · rw [avg_step]
    simp [pyDiv, hA]
  · simp only [FilterAvgOla.process_slice]
    simp [pyDiv, hF]

/-- Witness for `C1_amended` at concrete inputs (all four estimators
fresh, first slice empty). -/
theorem C1_amended_witness :
    (AvgOla.process_slice AvgOla.init ([] : List (Row GKey))).2.2 = [none]
    ∧ (FilterAvgOla.process_slice GKey.x FilterAvgOla.init ([] : List (Row GKey))).2 = ([""], [none])
    ∧ (GroupBySumOla.process_slice 6 (GroupBySumOla.init : GroupSumState GKey) []).2 = none
    ∧ (GroupByCountOla.process_slice 6 (GroupByCountOla.init : GroupCountState GKey) []).2 = none := by
  have h := C1_amended 6 GKey.x AvgOla.init ([] : List (Row GKey))
    FilterAvgOla.init [] GroupBySumOla.init [] GroupByCountOla.init []
    rfl rfl rfl rfl
  exact ⟨by rw [h.1], h.2.1, h.2.2.1, h.2.2.2⟩

/-- C2, counterexample.  The claim says `process_slice` on an empty slice
succeeds for every estimator, in particular when the empty slice is the
first slice ever processed.  For `GroupBySumOla` the first call computes
`original_rows / total_rows_processed` with the counter still `0` —
Python integer division, which raises `ZeroDivisionError` (modelled by
the `none` emission): the call fails instead of succeeding. -/
theorem C2_counterexample :
    (GroupBySumOla.process_slice 6 (GroupBySumOla.init : GroupSumState GKey)
      []).2 = none :=
  rfl

/-- C2, amended: `process_slice` on an empty slice leaves every
accumulator unchanged and, for `AvgOla`, `FilterAvgOla`,
`GroupByAvgOla` and `FilterDistinctOla` unconditionally — and for
`GroupBySumOla` / `GroupByCountOla` only when at least one row has been
processed before — re-emits the previous estimate; when
`rows_processed = 0` the two scaled estimators instead fail with
`ZeroDivisionError` (in particular on the very first slice). -/
theorem C2_amended {K : Type} [LinearOrder K] (R : ℕ) (fv : K)
    (sA : AvgState) (sF : FilterAvgState) (sG : GroupAvgState K)
    (sS : GroupSumState K) (sC : GroupCountState K) (sH : HLLSketch) :
    AvgOla.process_slice sA ([] : List (Row K)) =
      (sA, ([""], [pyDiv sA.sum sA.count]))
    ∧ FilterAvgOla.process_slice fv sF [] =
      (sF, ([""], [pyDiv sF.filtered_sum sF.filtered_count]))
    ∧ GroupByAvgOla.process_slice sG ([] : List (Row K)) =
      (sG, (keysOf sG.grouped_sum, (keysOf sG.grouped_sum).map
        (fun g => pyDiv (lookupD sG.grouped_sum g) (lookupD sG.grouped_count g))))
    ∧ (GroupBySumOla.process_slice R sS ([] : List (Row K))).1 = sS
    ∧ (sS.total_rows_processed ≠ 0 →
        (GroupBySumOla.process_slice R sS []).2 =
          some (keysOf sS.grouped_sums, sS.grouped_sums.map
            (fun p => p.2 * ((R : ℚ) / (sS.total_rows_processed : ℚ)))))
    ∧ (sS.total_rows_processed = 0 →
        (GroupBySumOla.process_slice R sS ([] : List (Row K))).2 = none)
    ∧ (GroupByCountOla.process_slice R sC ([] : List (Row K))).1 = sC
    ∧ (sC.rows_processed ≠ 0 →
        (GroupByCountOla.process_slice R sC []).2 =
          some (keysOf sC.grouped_counts, sC.grouped_counts.map
            (fun p => (p.2 : ℚ) * ((R : ℚ) / (sC.rows_processed : ℚ)))))
    ∧ (sC.rows_processed = 0 →
        (GroupByCountOla.process_slice R sC ([] : List (Row K))).2 = none)
    ∧ FilterDistinctOla.process_slice fv sH ([] : List (Row K)) =
      (sH, ([""], [sH.cardinality])) := by
  refine ⟨?_, ?_, ?_, ?_, ?_, ?_, ?_, ?_, ?_, ?_⟩
  · simp [AvgOla.process_slice, colSum, colCount]
  · simp [FilterAvgOla.process_slice, colSum, colCount]
  · rfl
  · simp only [GroupBySumOla.process_slice, List.length_nil, Nat.add_zero]
    split <;> rfl
  · intro h
    simp only [GroupBySumOla.process_slice, List.length_nil, Nat.add_zero]
    rw [if_neg h, sliceKeys_nil]
    exact rfl
  · intro h
    exact groupSum_step_fail _ _ _ (by simpa using h)
  · simp only [GroupByCountOla.process_slice, List.length_nil, Nat.add_zero]
    split <;> rfl
  · intro h
    simp only [GroupByCountOla.process_slice, List.length_nil, Nat.add_zero]
    rw [if_neg h, sliceKeys_nil]
    exact rfl
  · intro h
    exact groupCount_step_fail _ _ _ (by simpa using h)
  · rfl

/-- Witness for `C2_amended` at concrete inputs: empty slice on a
`GroupBySumOla` state that has already processed three rows — the
accumulators are untouched and the previous estimate is re-emitted. -/
theorem C2_amended_witness :
    (GroupBySumOla.process_slice 6 (⟨[(GKey.x, 5)], 3⟩ : GroupSumState GKey) []).1 =
      ⟨[(GKey.x, 5)], 3⟩
    ∧ (GroupBySumOla.process_slice 6 (⟨[(GKey.x, 5)], 3⟩ : GroupSumState GKey) []).2 =
      some ([GKey.x], [(5 : ℚ) * ((6 : ℚ) / ((3 : ℕ) : ℚ))]) := by
  have h := C2_amended (K := GKey) 6 GKey.x AvgOla.init FilterAvgOla.init
    GroupByAvgOla.init ⟨[(GKey.x, 5)], 3⟩ GroupByCountOla.init FilterDistinctOla.init
  refine ⟨h.2.2.2.1, ?_⟩
  rw [h.2.2.2.2.1 (by decide)]
  norm_num [keysOf]

/-- C10: `FilterDistinctOla.process_slice` emits exactly once per call —
a singleton value list under the empty label — even when zero rows have
ever matched the filter: with no matching row the sketch is unchanged
and the call succeeds, and on a fresh estimator (including an empty
first slice) it emits the empty sketch's cardinality `0`; no division
occurs anywhere in the step. -/
theorem C10_distinct_no_guard {K : Type} [DecidableEq K] (fv : K)
    (s : HLLSketch) (slice : List (Row K))
    (h : ∀ r ∈ slice, r.key ≠ fv) :
    FilterDistinctOla.process_slice fv s slice = (s, ([""], [s.cardinality]))
    ∧ FilterDistinctOla.process_slice fv FilterDistinctOla.init slice =
        (FilterDistinctOla.init, ([""], [0]))
    ∧ (∀ (s' : HLLSketch) (slice' : List (Row K)),
        (FilterDistinctOla.process_slice fv s' slice').2.1 = [""]
        ∧ ((FilterDistinctOla.process_slice fv s' slice').2.2).length = 1) := by
  have hf : slice.filter (fun r => decide (r.key = fv)) = [] := by
    rw [List.filter_eq_nil_iff]
    intro r hr
    simpa using h r hr
  refine ⟨?_, ?_, fun s' slice' => ⟨rfl, rfl⟩⟩
  · simp only [FilterDistinctOla.process_slice, hf]
    rfl
  · simp only [FilterDistinctOla.process_slice, hf]
    rfl

/-- Witness for `C10_distinct_no_guard`: a slice whose only row fails the
filter, against both a non-empty sketch and the fresh estimator. -/
theorem C10_witness :
    FilterDistinctOla.process_slice GKey.x (⟨["a"]⟩ : HLLSketch)
        [(⟨GKey.y, some 1⟩ : Row GKey)] =
      (⟨["a"]⟩, ([""], [HLLSketch.cardinality ⟨["a"]⟩]))
    ∧ FilterDistinctOla.process_slice GKey.x FilterDistinctOla.init
        [(⟨GKey.y, some 1⟩ : Row GKey)] =
      (FilterDistinctOla.init, ([""], [0])) := by
  have h := C10_distinct_no_guard GKey.x (⟨["a"]⟩ : HLLSketch)
    [(⟨GKey.y, some 1⟩ : Row GKey)] (by decide)
  exact ⟨h.1, h.2.1⟩

theorem groupSum_emit_groups {K : Type} [LinearOrder K] (R : ℕ)
    (s : GroupSumState K) (slice : List (Row K)) (gs : List K) (vs : List ℚ)
    (h : (GroupBySumOla.process_slice R s slice).2 = some (gs, vs)) :
    gs = keysOf ((GroupBySumOla.process_slice R s slice).1).grouped_sums := by
  by_cases h0 : s.total_rows_processed + slice.length = 0
  · rw [groupSum_step_fail _ _ _ h0] at h
    exact absurd h (by simp)
  · rw [groupSum_step_emit _ _ _ h0] at h
    have := Option.some.inj h
    exact (congrArg Prod.fst this).symm

theorem groupCount_emit_groups {K : Type} [LinearOrder K] (R : ℕ)
    (s : GroupCountState K) (slice : List (Row K)) (gs : List K) (vs : List ℚ)
    (h : (GroupByCountOla.process_slice R s slice).2 = some (gs, vs)) :
    gs = keysOf ((GroupByCountOla.process_slice R s slice).1).grouped_counts := by
  by_cases h0 : s.rows_processed + slice.length = 0
  · rw [groupCount_step_fail _ _ _ h0] at h
    exact absurd h (by simp)
  · rw [groupCount_step_emit _ _ _ h0] at h
    have := Option.some.inj h
    exact (congrArg Prod.fst this).symm

/-- C3: one `GroupBySumOla.process_slice` call (on any reachable state:
distinct dict keys) adds the slice's row count to
`total_rows_processed`, adds each slice group's raw target-column sum to
that group's accumulator — new groups appended at the end of the group
order — and, provided the call does not hit the `rows_processed = 0`
division error, emits for every known group its raw sum times the one
global scaling factor `original_rows / total_rows_processed`, the same
factor for every group. -/
theorem C3_groupedSum_step {K : Type} [LinearOrder K] (R : ℕ)
    (s : GroupSumState K) (slice : List (Row K))
    (hnd : (keysOf s.grouped_sums).Nodup)
    (hrows : s.total_rows_processed + slice.length ≠ 0) :
    ((GroupBySumOla.process_slice R s slice).1).total_rows_processed =
      s.total_rows_processed + slice.length
    ∧ (∀ g : K,
        lookupD ((GroupBySumOla.process_slice R s slice).1).grouped_sums g =
          lookupD s.grouped_sums g + sliceGroupSum slice g)
    ∧ keysOf ((GroupBySumOla.process_slice R s slice).1).grouped_sums =
        keysOf s.grouped_sums ++
          (sliceKeys slice).filter (fun k => decide (k ∉ keysOf s.grouped_sums))
    ∧ (GroupBySumOla.process_slice R s slice).2 =
        some (keysOf ((GroupBySumOla.process_slice R s slice).1).grouped_sums,
          (keysOf ((GroupBySumOla.process_slice R s slice).1).grouped_sums).map
            (fun g =>
              lookupD ((GroupBySumOla.process_slice R s slice).1).grouped_sums g *
                ((R : ℚ) / ((s.total_rows_processed + slice.length : ℕ) : ℚ)))) := by
  refine ⟨groupSum_step_rows R s slice, fun g => groupSum_step_lookup R s slice g,
    groupSum_step_keys R s slice, ?_⟩
  rw [groupSum_step_emit R s slice hrows,
    map_snd_eq_map_lookupD _ (fun g v =>
      v * ((R : ℚ) / ((s.total_rows_processed + slice.length : ℕ) : ℚ)))
      (groupSum_step_keys_nodup R s slice hnd)]

/-- Witness for `C3_groupedSum_step`: fresh estimator fed the scenario's
first slice. -/
theorem C3_witness :
    ((GroupBySumOla.process_slice 6 (GroupBySumOla.init : GroupSumState GKey)
        scenarioSlice1).1).total_rows_processed = 3
    ∧ lookupD ((GroupBySumOla.process_slice 6
        (GroupBySumOla.init : GroupSumState GKey) scenarioSlice1).1).grouped_sums
        GKey.x =
      lookupD (GroupBySumOla.init : GroupSumState GKey).grouped_sums GKey.x +
        sliceGroupSum scenarioSlice1 GKey.x := by
  have h := C3_groupedSum_step 6 (GroupBySumOla.init : GroupSumState GKey)
    scenarioSlice1 (by simp [GroupBySumOla.init, keysOf]) (by simp [scenarioSlice1])
  exact ⟨h.1, h.2.1 GKey.x⟩

/-- C5: once a group key is known to a grouped estimator — it sits at
position `i` of the accumulator's key order — then after any further
slices it still sits at position `i`, and any emission produced by a
subsequent `process_slice` call lists it at that same position `i` of
the groups sequence, even if no later slice contains rows of that
group. -/
theorem C5_group_persistence {K : Type} [LinearOrder K] (R : ℕ)
    (i : ℕ) (g : K)
    (sA : GroupAvgState K) (slicesA : List (List (Row K))) (sliceA : List (Row K))
    (sS : GroupSumState K) (slicesS : List (List (Row K))) (sliceS : List (Row K))
    (sC : GroupCountState K) (slicesC : List (List (Row K))) (sliceC : List (Row K))
    (hA : (keysOf sA.grouped_sum)[i]? = some g)
    (hS : (keysOf sS.grouped_sums)[i]? = some g)
    (hC : (keysOf sC.grouped_counts)[i]? = some g) :
    ((GroupByAvgOla.process_slice (runGroupAvg sA slicesA) sliceA).2.1)[i]? = some g
    ∧ (∀ gs vs, (GroupBySumOla.process_slice R (runGroupSum R sS slicesS) sliceS).2 =
        some (gs, vs) → gs[i]? = some g)
    ∧ (∀ gs vs, (GroupByCountOla.process_slice R (runGroupCount R sC slicesC) sliceC).2 =
        some (gs, vs) → gs[i]? = some g) := by
  have hiA : i < (keysOf sA.grouped_sum).length :=
    List.getElem?_eq_some_iff.mp hA |>.choose
  have hiS : i < (keysOf sS.grouped_sums).length :=
    List.getElem?_eq_some_iff.mp hS |>.choose
  have hiC : i < (keysOf sC.grouped_counts).length :=
    List.getElem?_eq_some_iff.mp hC |>.choose
  refine ⟨?_, ?_, ?_⟩
  · rw [groupAvg_step_emit]
    obtain ⟨t, ht⟩ := runGroupAvg_sum_keys_prefixExt sA slicesA
    rw [groupAvg_step_sum_keys, ht, List.append_assoc,
      List.getElem?_append_left hiA]
    exact hA
  · intro gs vs hemit
    rw [groupSum_emit_groups R _ _ _ _ hemit]
    obtain ⟨t, ht⟩ := runGroupSum_keys_prefixExt R sS slicesS
    rw [groupSum_step_keys, ht, List.append_assoc, List.getElem?_append_left hiS]
    exact hS
  · intro gs vs hemit
    rw [groupCount_emit_groups R _ _ _ _ hemit]
    obtain ⟨t, ht⟩ := runGroupCount_keys_prefixExt R sC slicesC
    rw [groupCount_step_keys, ht, List.append_assoc, List.getElem?_append_left hiC]
    exact hC

/-- Witness for `C5_group_persistence`: key `x` sits at position `0`
after the scenario's first slice and stays there through the second
slice for all three grouped estimators. -/
theorem C5_witness :
    ((GroupByAvgOla.process_slice (runGroupAvg
        (GroupByAvgOla.process_slice (GroupByAvgOla.init : GroupAvgState GKey)
          scenarioSlice1).1 []) scenarioSlice2).2.1)[0]? = some GKey.x := by
  have h := C5_group_persistence 6 0 GKey.x
    (GroupByAvgOla.process_slice (GroupByAvgOla.init : GroupAvgState GKey)
      scenarioSlice1).1 [] scenarioSlice2
    (GroupBySumOla.process_slice 6 (GroupBySumOla.init : GroupSumState GKey)
      scenarioSlice1).1 [] scenarioSlice2
    (GroupByCountOla.process_slice 6 (GroupByCountOla.init : GroupCountState GKey)
      scenarioSlice1).1 [] scenarioSlice2
    (by decide) (by decide) (by decide)
  exact h.1

/-- C7: feeding `AvgOla` any partition of a fixed multiset of rows, as
slices in any order, leaves final accumulators `sum` and `count` equal
to the column sum and non-missing count of the whole dataset, so the
final `sum / count` equals the mean computed directly over the whole
dataset. -/
theorem C7_mean_order_independence {K : Type} (dataset : List (Row K))
    (slices : List (List (Row K))) (hperm : slices.flatten.Perm dataset) :
    (runAvg AvgOla.init slices).sum = colSum dataset
    ∧ (runAvg AvgOla.init slices).count = colCount dataset
    ∧ (runAvg AvgOla.init slices).sum / (((runAvg AvgOla.init slices).count : ℕ) : ℚ) =
        colSum dataset / ((colCount dataset : ℕ) : ℚ) := by
  have hsum : (runAvg AvgOla.init slices).sum = colSum dataset := by
    rw [runAvg_sum, colSum_perm hperm]
    simp [AvgOla.init]
  have hcount : (runAvg AvgOla.init slices).count = colCount dataset := by
    rw [runAvg_count, colCount_perm hperm]
    simp [AvgOla.init]
  exact ⟨hsum, hcount, by rw [hsum, hcount]⟩

/-- Witness for `C7_mean_order_independence`: the scenario's two slices,
fed in swapped order, against the 6-row dataset. -/
theorem C7_witness :
    (runAvg AvgOla.init [scenarioSlice2, scenarioSlice1]).sum =
      colSum (scenarioSlice1 ++ scenarioSlice2)
    ∧ (runAvg AvgOla.init [scenarioSlice2, scenarioSlice1]).count =
      colCount (scenarioSlice1 ++ scenarioSlice2) := by
  have h := C7_mean_order_independence (scenarioSlice1 ++ scenarioSlice2)
    [scenarioSlice2, scenarioSlice1] (by decide)
  exact ⟨h.1, h.2.1⟩

/-- C9, counterexample.  The claim says a `GroupByAvgOla` group entry is
only ever created together with a non-empty contribution of counted
values, so `count[g] > 0` for every known group and the emission
division is always defined.  But pandas `groupby` lists a group as soon
as a row with that key exists even when the row's target value is
missing, while `count()` skips the missing value: after the slice
`[(x, NaN)]` the group `x` exists with `grouped_count[x] = 0`, and the
emission divides `0.0 / 0`, producing NaN (`none`). -/
theorem C9_counterexample :
    GKey.x ∈ keysOf ((GroupByAvgOla.process_slice
        (GroupByAvgOla.init : GroupAvgState GKey) [⟨.x, none⟩]).1).grouped_count
    ∧ lookupD ((GroupByAvgOla.process_slice
        (GroupByAvgOla.init : GroupAvgState GKey) [⟨.x, none⟩]).1).grouped_count
        GKey.x = 0
    ∧ (GroupByAvgOla.process_slice (GroupByAvgOla.init : GroupAvgState GKey)
        [⟨.x, none⟩]).2 = ([.x], [none]) := by
  refine ⟨by decide, by decide, ?_⟩
  rw [groupAvg_step_emit]
  have h1 : keysOf ((GroupByAvgOla.process_slice
      (GroupByAvgOla.init : GroupAvgState GKey) [⟨.x, none⟩]).1).grouped_sum =
      [GKey.x] := by decide
  rw [h1]
  have h2 : lookupD ((GroupByAvgOla.process_slice
      (GroupByAvgOla.init : GroupAvgState GKey) [⟨.x, none⟩]).1).grouped_count
      GKey.x = 0 := by decide
  simp [pyDiv]
  exact h2

/-- C9, amended: provided every row ever fed to `GroupByAvgOla` carries a
non-missing target value, every group key present in the accumulator
maps has `count[g] > 0`, so the division `sum[g] / count[g]` performed
at emission is defined for every known group after any sequence of
`process_slice` calls. -/
theorem C9_amended {K : Type} [LinearOrder K] (slices : List (List (Row K)))
    (h : ∀ sl ∈ slices, ∀ r ∈ sl, (r.val).isSome) :
    ∀ g ∈ keysOf (runGroupAvg (GroupByAvgOla.init : GroupAvgState K)
        slices).grouped_count,
      0 < lookupD (runGroupAvg (GroupByAvgOla.init : GroupAvgState K)
        slices).grouped_count g := by
  suffices H : ∀ (s : GroupAvgState K),
      (∀ g ∈ keysOf s.grouped_count, 0 < lookupD s.grouped_count g) →
      ∀ g ∈ keysOf (runGroupAvg s slices).grouped_count,
        0 < lookupD (runGroupAvg s slices).grouped_count g by
    exact H GroupByAvgOla.init (by simp [GroupByAvgOla.init, keysOf])
  induction slices with
  | nil => intro s hs; exact hs
  | cons slice slices ih =>
    intro s hs
    rw [runGroupAvg_cons]
    refine ih (fun sl hsl => h sl (List.mem_cons_of_mem _ hsl)) _ ?_
    intro g hg
    rw [groupAvg_step_count_lookup]
    rw [groupAvg_step_state] at hg
    rcases (mem_keysOf_bumpAll _ _ _ _).mp hg with hold | hnew
    · exact Nat.lt_of_lt_of_le (hs g hold) (Nat.le_add_right _ _)
    · obtain ⟨r, hr, hk⟩ := (mem_sliceKeys slice g).mp hnew
      have : 0 < sliceGroupCount slice g :=
        sliceGroupCount_pos slice g r hr hk
          (h slice (List.mem_cons_self _ _) r hr)
      exact Nat.lt_of_lt_of_le this (Nat.le_add_left _ _)

/-- Witness for `C9_amended`: one slice of one row with a present value
gives `count[x] = 1 > 0`. -/
theorem C9_witness :
    0 < lookupD (runGroupAvg (GroupByAvgOla.init : GroupAvgState GKey)
        [[⟨.x, some 1⟩]]).grouped_count GKey.x :=
  C9_amended [[⟨.x, some 1⟩]] (by decide) GKey.x (by decide)

/-- C8: after any run of `FilterDistinctOla` (previous slices `pre`, then
one more call on `last`), the sketch holds exactly the canonical string
forms of the values of rows that matched the filter by exact equality
(each at most once), and the call emits, under the empty label, the
single value `hll.cardinality()` = the number of distinct canonical
strings among all matching rows so far — with no scaling factor
applied. -/
theorem C8_filter_distinct {K : Type} [DecidableEq K] (fv : K)
    (pre : List (List (Row K))) (last : List (Row K)) :
    ((FilterDistinctOla.process_slice fv
        (runFilterDistinct fv FilterDistinctOla.init pre) last).1).tokens.Nodup
    ∧ (∀ t, t ∈ ((FilterDistinctOla.process_slice fv
        (runFilterDistinct fv FilterDistinctOla.init pre) last).1).tokens ↔
        t ∈ (((pre ++ [last]).flatten.filter
          (fun r => decide (r.key = fv))).map (fun r => canon r.val)))
    ∧ (FilterDistinctOla.process_slice fv
        (runFilterDistinct fv FilterDistinctOla.init pre) last).2 =
      ([""], [(((((pre ++ [last]).flatten.filter
          (fun r => decide (r.key = fv))).map
            (fun r => canon r.val)).dedup.length : ℕ) : ℚ)]) := by
  have hstate : (FilterDistinctOla.process_slice fv
      (runFilterDistinct fv FilterDistinctOla.init pre) last).1 =
      ((((pre ++ [last]).flatten).filter (fun r => decide (r.key = fv))).map
        (fun r => canon r.val)).foldl HLLSketch.add FilterDistinctOla.init := by
    rw [filterDistinct_step_state, runFilterDistinct_state]
    rw [List.flatten_append, List.flatten_cons, List.flatten_nil, List.append_nil,
      List.filter_append, List.map_append, List.foldl_append]
  have hnd : ((FilterDistinctOla.process_slice fv
      (runFilterDistinct fv FilterDistinctOla.init pre) last).1).tokens.Nodup := by
    rw [hstate]
    exact foldl_add_tokens_nodup _ _ (by simp [FilterDistinctOla.init])
  have hmem : ∀ t, t ∈ ((FilterDistinctOla.process_slice fv
      (runFilterDistinct fv FilterDistinctOla.init pre) last).1).tokens ↔
      t ∈ (((pre ++ [last]).flatten.filter
        (fun r => decide (r.key = fv))).map (fun r => canon r.val)) := by
    intro t
    rw [hstate, mem_foldl_add_tokens]
    simp [FilterDistinctOla.init]
  refine ⟨hnd, hmem, ?_⟩
  rw [filterDistinct_step_emit]
  have hcard : ((FilterDistinctOla.process_slice fv
      (runFilterDistinct fv FilterDistinctOla.init pre) last).1).tokens.length =
      (((pre ++ [last]).flatten.filter
        (fun r => decide (r.key = fv))).map (fun r => canon r.val)).dedup.length := by
    apply length_eq_dedup_length_of_nodup_mem hnd (List.nodup_dedup _)
    intro t
    rw [hmem t, List.mem_dedup]
  rw [HLLSketch.cardinality, hcard]

/-- C4: when the slices fed over a scaled estimator's lifetime cover the
full dataset exactly once (their concatenation is a permutation of the
dataset, whose row count was passed as `original_rows`), then after the
final call `rows_processed = original_rows`, the scaling factor
`original_rows / rows_processed` equals `1`, and the emission pairs each
known group with its exact group sum (for `GroupBySumOla`) respectively
its exact group count (for `GroupByCountOla`) over the full dataset. -/
theorem C4_scaling_convergence {K : Type} [LinearOrder K]
    (dataset : List (Row K)) (pre : List (List (Row K))) (last : List (Row K))
    (hperm : ((pre ++ [last]).flatten).Perm dataset) (hne : dataset ≠ []) :
    ((GroupBySumOla.process_slice dataset.length
        (runGroupSum dataset.length GroupBySumOla.init pre) last).1).total_rows_processed =
      dataset.length
    ∧ ((dataset.length : ℕ) : ℚ) /
        ((((GroupBySumOla.process_slice dataset.length
          (runGroupSum dataset.length GroupBySumOla.init pre) last).1).total_rows_processed : ℕ) : ℚ) = 1
    ∧ (GroupBySumOla.process_slice dataset.length
        (runGroupSum dataset.length GroupBySumOla.init pre) last).2 =
      some (keysOf ((GroupBySumOla.process_slice dataset.length
          (runGroupSum dataset.length GroupBySumOla.init pre) last).1).grouped_sums,
        (keysOf ((GroupBySumOla.process_slice dataset.length
          (runGroupSum dataset.length GroupBySumOla.init pre) last).1).grouped_sums).map
          (fun g => sliceGroupSum dataset g))
    ∧ ((GroupByCountOla.process_slice dataset.length
        (runGroupCount dataset.length GroupByCountOla.init pre) last).1).rows_processed =
      dataset.length
    ∧ (GroupByCountOla.process_slice dataset.length
        (runGroupCount dataset.length GroupByCountOla.init pre) last).2 =
      some (keysOf ((GroupByCountOla.process_slice dataset.length
          (runGroupCount dataset.length GroupByCountOla.init pre) last).1).grouped_counts,
        (keysOf ((GroupByCountOla.process_slice dataset.length
          (runGroupCount dataset.length GroupByCountOla.init pre) last).1).grouped_counts).map
          (fun g => ((sliceGroupCount dataset g : ℕ) : ℚ))) := by
  have hlen : pre.flatten.length + last.length = dataset.length := by
    have := hperm.length_eq
    rw [List.flatten_append, List.flatten_cons, List.flatten_nil, List.append_nil,
      List.length_append] at this
    exact this
  have hflat : (pre.flatten ++ last).Perm dataset := by
    rw [List.flatten_append, List.flatten_cons, List.flatten_nil,
      List.append_nil] at hperm
    exact hperm
  have hne' : dataset.length ≠ 0 := fun h => hne (List.length_eq_zero.mp h)
  -- GroupBySumOla part
  have hrowsS : ((GroupBySumOla.process_slice dataset.length
      (runGroupSum dataset.length GroupBySumOla.init pre) last).1).total_rows_processed =
      dataset.length := by
    rw [groupSum_step_rows, runGroupSum_rows]
    simpa [GroupBySumOla.init] using hlen
  have h0S : (runGroupSum dataset.length GroupBySumOla.init
      (K := K) pre).total_rows_processed + last.length ≠ 0 := by
    rw [runGroupSum_rows]
    simp only [GroupBySumOla.init, Nat.zero_add]
    rw [hlen]
    exact hne'
  have hscal : ((dataset.length : ℕ) : ℚ) /
      (((runGroupSum dataset.length GroupBySumOla.init (K := K)
        pre).total_rows_processed + last.length : ℕ) : ℚ) = 1 := by
    rw [runGroupSum_rows]
    simp only [GroupBySumOla.init]
    rw [Nat.zero_add, hlen]
    exact div_self (by exact_mod_cast hne')
  have hlookS : ∀ g, lookupD ((GroupBySumOla.process_slice dataset.length
      (runGroupSum dataset.length GroupBySumOla.init pre) last).1).grouped_sums g =
      sliceGroupSum dataset g := by
    intro g
    rw [groupSum_step_lookup, runGroupSum_lookup]
    simp only [GroupBySumOla.init, lookupD]
    rw [zero_add, ← sliceGroupSum_append, sliceGroupSum_perm hflat]
  have hndS : (keysOf ((GroupBySumOla.process_slice dataset.length
      (runGroupSum dataset.length GroupBySumOla.init pre) last).1).grouped_sums).Nodup :=
    groupSum_step_keys_nodup _ _ _
      (runGroupSum_keys_nodup _ _ _ (by simp [GroupBySumOla.init, keysOf]))
  have hemitS : (GroupBySumOla.process_slice dataset.length
      (runGroupSum dataset.length GroupBySumOla.init pre) last).2 =
      some (keysOf ((GroupBySumOla.process_slice dataset.length
          (runGroupSum dataset.length GroupBySumOla.init pre) last).1).grouped_sums,
        (keysOf ((GroupBySumOla.process_slice dataset.length
          (runGroupSum dataset.length GroupBySumOla.init pre) last).1).grouped_sums).map
          (fun g => sliceGroupSum dataset g)) := by
    rw [groupSum_step_emit _ _ _ h0S,
      map_snd_eq_map_lookupD _ (fun g v => v * _) hndS]
    congr 1
    congr 1
    apply List.map_congr_left
    intro g _
    rw [hlookS g, hscal, mul_one]
  -- GroupByCountOla part
  have hrowsC : ((GroupByCountOla.process_slice dataset.length
      (runGroupCount dataset.length GroupByCountOla.init pre) last).1).rows_processed =
      dataset.length := by
    rw [groupCount_step_rows, runGroupCount_rows]
    simpa [GroupByCountOla.init] using hlen
  have h0C : (runGroupCount dataset.length GroupByCountOla.init
      (K := K) pre).rows_processed + last.length ≠ 0 := by
    rw [runGroupCount_rows]
    simp only [GroupByCountOla.init, Nat.zero_add]
    rw [hlen]
    exact hne'
  have hscalC : ((dataset.length : ℕ) : ℚ) /
      (((runGroupCount dataset.length GroupByCountOla.init (K := K)
        pre).rows_processed + last.length : ℕ) : ℚ) = 1 := by
    rw [runGroupCount_rows]
    simp only [GroupByCountOla.init]
    rw [Nat.zero_add, hlen]
    exact div_self (by exact_mod_cast hne')
  have hlookC : ∀ g, lookupD ((GroupByCountOla.process_slice dataset.length
      (runGroupCount dataset.length GroupByCountOla.init pre) last).1).grouped_counts g =
      sliceGroupCount dataset g := by
    intro g
    rw [groupCount_step_lookup, runGroupCount_lookup]
    simp only [GroupByCountOla.init, lookupD]
    rw [Nat.zero_add, ← sliceGroupCount_append, sliceGroupCount_perm hflat]
  have hndC : (keysOf ((GroupByCountOla.process_slice dataset.length
      (runGroupCount dataset.length GroupByCountOla.init pre) last).1).grouped_counts).Nodup :=
    groupCount_step_keys_nodup _ _ _
      (runGroupCount_keys_nodup _ _ _ (by simp [GroupByCountOla.init, keysOf]))
  have hemitC : (GroupByCountOla.process_slice dataset.length
      (runGroupCount dataset.length GroupByCountOla.init pre) last).2 =
      some (keysOf ((GroupByCountOla.process_slice dataset.length
          (runGroupCount dataset.length GroupByCountOla.init pre) last).1).grouped_counts,
        (keysOf ((GroupByCountOla.process_slice dataset.length
          (runGroupCount dataset.length GroupByCountOla.init pre) last).1).grouped_counts).map
          (fun g => ((sliceGroupCount dataset g : ℕ) : ℚ))) := by
    rw [groupCount_step_emit _ _ _ h0C, map_snd_cast_mul_eq _ _ hndC]
    congr 1
    congr 1
    apply List.map_congr_left
    intro g _
    rw [hlookC g, hscalC, mul_one]
  exact ⟨hrowsS, by rw [groupSum_step_rows]; exact hscal, hemitS, hrowsC, hemitC⟩

/-- Witness for `C4_scaling_convergence`: the scenario's two slices cover
the 6-row dataset exactly once. -/
theorem C4_witness :
    ((GroupBySumOla.process_slice 6 (runGroupSum 6 GroupBySumOla.init
        [scenarioSlice1]) scenarioSlice2).1).total_rows_processed = 6
    ∧ ((6 : ℕ) : ℚ) / ((((GroupBySumOla.process_slice 6 (runGroupSum 6
        GroupBySumOla.init [scenarioSlice1])
        scenarioSlice2).1).total_rows_processed : ℕ) : ℚ) = 1 := by
  have h := C4_scaling_convergence (scenarioSlice1 ++ scenarioSlice2)
    [scenarioSlice1] scenarioSlice2 (List.Perm.refl _) (by decide)
  exact ⟨h.1, h.2.1⟩

/-- C6: the concrete 6-row scenario.  On the dataset
`[(x,1),(x,2),(y,3),(y,4),(y,5),(z,6)]` sliced as
`slice1 = [(x,1),(x,2),(y,3)]`, `slice2 = [(y,4),(y,5),(z,6)]`:
`GroupByAvgOla` emits groups `[x,y]` / means `[1.5, 3.0]` after slice 1
and `[x,y,z]` / `[1.5, 4.0, 6.0]` after slice 2; `GroupBySumOla` with
`original_rows = 6` has `total_rows_processed = 3`, scaling factor `2`,
emission `[x,y]` / `[6.0, 6.0]` after slice 1, and
`total_rows_processed = 6`, scaling factor `1`, emission values
`[3.0, 12.0, 6.0]` after slice 2. -/
theorem C6_concrete_scenario :
    (GroupByAvgOla.process_slice GroupByAvgOla.init scenarioSlice1).2 =
      ([.x, .y], [some (3/2 : ℚ), some 3])
    ∧ (GroupByAvgOla.process_slice
        (GroupByAvgOla.process_slice GroupByAvgOla.init scenarioSlice1).1
        scenarioSlice2).2 =
      ([.x, .y, .z], [some (3/2 : ℚ), some 4, some 6])
    ∧ ((GroupBySumOla.process_slice 6 GroupBySumOla.init
        scenarioSlice1).1).total_rows_processed = 3
    ∧ (6 : ℚ) / ((((GroupBySumOla.process_slice 6 GroupBySumOla.init
        scenarioSlice1).1).total_rows_processed : ℕ) : ℚ) = 2
    ∧ (GroupBySumOla.process_slice 6 GroupBySumOla.init scenarioSlice1).2 =
      some ([.x, .y], [(6 : ℚ), 6])
    ∧ ((GroupBySumOla.process_slice 6
        (GroupBySumOla.process_slice 6 GroupBySumOla.init scenarioSlice1).1
        scenarioSlice2).1).total_rows_processed = 6
    ∧ (6 : ℚ) / ((((GroupBySumOla.process_slice 6
        (GroupBySumOla.process_slice 6 GroupBySumOla.init scenarioSlice1).1
        scenarioSlice2).1).total_rows_processed : ℕ) : ℚ) = 1
    ∧ (GroupBySumOla.process_slice 6
        (GroupBySumOla.process_slice 6 GroupBySumOla.init scenarioSlice1).1
        scenarioSlice2).2 =
      some ([.x, .y, .z], [(3 : ℚ), 12, 6]) := by
  have h3 : ((GroupBySumOla.process_slice 6 GroupBySumOla.init
      scenarioSlice1).1).total_rows_processed = 3 := by decide
  have h6 : ((GroupBySumOla.process_slice 6
      (GroupBySumOla.process_slice 6 GroupBySumOla.init scenarioSlice1).1
      scenarioSlice2).1).total_rows_processed = 6 := by decide
  refine ⟨?_, ?_, h3, by rw [h3]; norm_num, ?_, h6, by rw [h6]; norm_num, ?_⟩
  · simp +decide [GroupByAvgOla.process_slice, GroupByAvgOla.init, sliceKeys,
      bumpAll, bump, lookupD, keysOf, sliceGroupSum, sliceGroupCount, groupRows,
      colSum, colCount, pyDiv, scenarioSlice1, List.insertionSort,
      List.orderedInsert, List.dedup]
    norm_num
  · simp +decide [GroupByAvgOla.process_slice, GroupByAvgOla.init, sliceKeys,
      bumpAll, bump, lookupD, keysOf, sliceGroupSum, sliceGroupCount, groupRows,
      colSum, colCount, pyDiv, scenarioSlice1, scenarioSlice2,
      List.insertionSort, List.orderedInsert, List.dedup]
    norm_num
  · simp +decide [GroupBySumOla.process_slice, GroupBySumOla.init, sliceKeys,
      bumpAll, bump, lookupD, keysOf, sliceGroupSum, groupRows, colSum,
      scenarioSlice1, List.insertionSort, List.orderedInsert, List.dedup]
    norm_num
  · simp +decide [GroupBySumOla.process_slice, GroupBySumOla.init, sliceKeys,
      bumpAll, bump, lookupD, keysOf, sliceGroupSum, groupRows, colSum,
      scenarioSlice1, scenarioSlice2, List.insertionSort, List.orderedInsert,
      List.dedup]
    norm_num

end Ola
